import Mathlib

/-!
Shallow embedding of the profile-timer reconciliation core of clash-verge-rev
(`src-tauri/src/core/timer.rs`) and of the mihomo API cache
(`src-tauri/src/crate_mihomo_api/src/lib.rs`).

The Rust `HashMap<String, _>` maps are embedded as association lists with
no duplicate keys; `HashMap` iteration is embedded as iteration in list
order (a deterministic refinement of the unspecified-but-fixed-per-run
iteration order of the hash map).  Machine integers (`u64`, `i64`) are
embedded as `Nat` / `Int`; where the Rust code performs an `as i64` cast
or `i64` arithmetic that can wrap, the wrap is made explicit with
`wrap64`.  A fallible Rust expression that can panic (`Option::unwrap`)
is embedded in `Option`, with `none` denoting the panic.
-/

namespace ClashVergeRev

abbrev TaskID := Nat

/-! ### Association-list model of `HashMap<String, α>` -/

/-- `HashMap::get`. -/
def lookupA {α : Type} : List (String × α) → String → Option α
  | [], _ => none
  | (k, v) :: rest, u => if u = k then some v else lookupA rest u

/-- `HashMap::insert`: replaces the binding if the key is present,
otherwise appends it. -/
def insertA {α : Type} : List (String × α) → String → α → List (String × α)
  | [], k, v => [(k, v)]
  | (k', v') :: rest, k, v =>
    if k' = k then (k, v) :: rest else (k', v') :: insertA rest k v

/-- `HashMap::remove`. -/
def eraseA {α : Type} : List (String × α) → String → List (String × α)
  | [], _ => []
  | (k', v') :: rest, k => if k' = k then rest else (k', v') :: eraseA rest k

def keysA {α : Type} (m : List (String × α)) : List String := m.map Prod.fst

/-- The no-duplicate-keys invariant every embedded `HashMap` satisfies. -/
abbrev NodupKeys {α : Type} (m : List (String × α)) : Prop := (keysA m).Nodup

/-! ### Data model of `timer.rs` -/

/-- `DiffFlag` from `timer.rs`. -/
inductive DiffFlag : Type
  | Del (tid : TaskID)
  | Add (tid : TaskID) (val : Nat)
  | Mod (tid : TaskID) (val : Nat)
deriving DecidableEq, Repr

/-- The profile option record, restricted to the field the timer reads
(`update_interval : Option<u64>`). -/
structure PrfOption where
  update_interval : Option Nat
deriving DecidableEq, Repr

/-- A profile item, restricted to the fields the timer reads. -/
structure PrfItem where
  uid : Option String
  option : Option PrfOption
  updated : Option Nat
deriving DecidableEq, Repr

/-- A call made by the core against the task-runtime adapter (`DelayTimer`). -/
inductive AdapterCall : Type
  | removeTask (tid : TaskID)
  | addTask (uid : String) (tid : TaskID) (minutes : Nat)
  | advanceTask (tid : TaskID)
deriving DecidableEq, Repr

/-- Decides which adapter calls succeed; a failure is logged by the core
(`crate::log_err!`) and otherwise ignored. -/
def Oracle : Type := AdapterCall → Bool

/-- State of the task-runtime adapter: the registered tasks
(task id, bound uid, cadence in minutes) together with the journal of every
call the core has made against it, successful or not. -/
structure Adapter where
  tasks : List (TaskID × String × Nat)
  attempted : List AdapterCall
deriving DecidableEq, Repr

/-- `delay_timer.remove_task(tid)`: fails (per the oracle) without effect,
or removes the task with that id. -/
def adapterRemove (oracle : Oracle) (a : Adapter) (tid : TaskID) : Adapter :=
  let a := { a with attempted := a.attempted ++ [AdapterCall.removeTask tid] }
  if oracle (AdapterCall.removeTask tid) then
    { a with tasks := a.tasks.filter (fun t => t.1 != tid) }
  else a

/-- `Timer::add_task`: builds the task and registers it with the adapter;
either step can fail (per the oracle), in which case nothing is registered. -/
def adapterAdd (oracle : Oracle) (a : Adapter) (uid : String) (tid : TaskID)
    (minutes : Nat) : Adapter :=
  let a := { a with attempted := a.attempted ++ [AdapterCall.addTask uid tid minutes] }
  if oracle (AdapterCall.addTask uid tid minutes) then
    { a with tasks := a.tasks ++ [(tid, uid, minutes)] }
  else a

/-- `delay_timer.advance_task(tid)`: triggers one immediate execution of an
existing job; the registered schedule is unchanged. -/
def adapterAdvance (a : Adapter) (tid : TaskID) : Adapter :=
  { a with attempted := a.attempted ++ [AdapterCall.advanceTask tid] }

/-- The timer core state: `timer_map`, `timer_count`, `initialized`, plus
the adapter (`delay_timer`) the core drives. -/
structure TimerState where
  timer_map : List (String × TaskID × Nat)
  timer_count : TaskID
  initialized : Bool
  delay_timer : Adapter
deriving DecidableEq, Repr

/-- The state built by `Timer::global()`: empty registry, counter starting
at 1, not initialized, fresh adapter. -/
def globalInit : TimerState :=
  { timer_map := [], timer_count := 1, initialized := false,
    delay_timer := { tasks := [], attempted := [] } }

/-- `Timer::gen_map`, folded over the profile items with the accumulated
`new_map`; `none` is the panic of `item.uid.clone().unwrap()` on a
schedulable profile without a uid. -/
def gen_map : List PrfItem → List (String × Nat) → Option (List (String × Nat))
  | [], new_map => some new_map
  | item :: rest, new_map =>
    match item.option with
    | none => gen_map rest new_map
    | some opt =>
      let interval := opt.update_interval.getD 0
      if 0 < interval then
        match item.uid with
        | none => none
        | some uid => gen_map rest (insertA new_map uid interval)
      else gen_map rest new_map

/-- The first `for_each` of `Timer::gen_diff`, over the current registry:
emits `Del`/`Mod` entries into `diff_map`. -/
def genDiffDels (new_map : List (String × Nat)) :
    List (String × TaskID × Nat) → List (String × DiffFlag) → List (String × DiffFlag)
  | [], diff_map => diff_map
  | (uid, tid, val) :: rest, diff_map =>
    let newVal := (lookupA new_map uid).getD 0
    if newVal = 0 then
      genDiffDels new_map rest (insertA diff_map uid (DiffFlag.Del tid))
    else if newVal ≠ val then
      genDiffDels new_map rest (insertA diff_map uid (DiffFlag.Mod tid newVal))
    else
      genDiffDels new_map rest diff_map

/-- The second `for_each` of `Timer::gen_diff`, over the desired map:
emits `Add` entries, drawing ids from and incrementing `timer_count`. -/
def genDiffAdds (cur_map : List (String × TaskID × Nat)) :
    List (String × Nat) → List (String × DiffFlag) → TaskID →
    List (String × DiffFlag) × TaskID
  | [], diff_map, count => (diff_map, count)
  | (uid, val) :: rest, diff_map, count =>
    if lookupA cur_map uid = none then
      genDiffAdds cur_map rest (insertA diff_map uid (DiffFlag.Add count val)) (count + 1)
    else
      genDiffAdds cur_map rest diff_map count

/-- `Timer::gen_diff` on explicit state: current registry, desired map and
allocator value in; diff map and new allocator value out. -/
def gen_diff (cur_map : List (String × TaskID × Nat)) (new_map : List (String × Nat))
    (count : TaskID) : List (String × DiffFlag) × TaskID :=
  genDiffAdds cur_map new_map (genDiffDels new_map cur_map []) count

/-- One step of the mutation loop in `Timer::refresh`. -/
def applyDiff (oracle : Oracle) (s : TimerState) : String × DiffFlag → TimerState
  | (uid, DiffFlag.Del tid) =>
    { s with timer_map := eraseA s.timer_map uid,
             delay_timer := adapterRemove oracle s.delay_timer tid }
  | (uid, DiffFlag.Add tid val) =>
    { s with timer_map := insertA s.timer_map uid (tid, val),
             delay_timer := adapterAdd oracle s.delay_timer uid tid val }
  | (uid, DiffFlag.Mod tid val) =>
    { s with timer_map := insertA s.timer_map uid (tid, val),
             delay_timer :=
               adapterAdd oracle (adapterRemove oracle s.delay_timer tid) uid tid val }

/-- `Timer::refresh`, reconciling against an already-built desired map
(the output of `gen_map`); always returns `Ok(())`. -/
def refresh (oracle : Oracle) (s : TimerState) (new_map : List (String × Nat)) :
    TimerState × Except String Unit :=
  let dc := gen_diff s.timer_map new_map s.timer_count
  (dc.1.foldl (applyDiff oracle) { s with timer_count := dc.2 }, Except.ok ())

/-- `Timer::refresh` composed with `gen_map` over the raw configuration
snapshot; `none` is the `gen_map` panic propagating out of `refresh`. -/
def refresh_items (oracle : Oracle) (s : TimerState) (items : List PrfItem) :
    Option (TimerState × Except String Unit) :=
  (gen_map items []).map (refresh oracle s)

/-- An oracle under which every adapter call succeeds. -/
def allOk : Oracle := fun _ => true

/-! ### `i64` arithmetic of the catch-up scan -/

/-- Wrap-around of an integer into the `i64` range, as Rust release-mode
arithmetic and `as i64` casts do. -/
def wrap64 (z : Int) : Int := (z + 2 ^ 63) % 2 ^ 64 - 2 ^ 63

/-- The `as i64` cast of a `u64` value. -/
def u64_as_i64 (n : Nat) : Int := wrap64 n

/-- The `filter_map` predicate of the catch-up scan in `Timer::init`:
keeps a profile when its interval (minutes, converted to seconds in `i64`
arithmetic) is positive and `cur_timestamp - updated >= interval`. -/
def overdueKeep (now : Int) (item : PrfItem) : Bool :=
  match item.option with
  | none => false
  | some opt =>
    match opt.update_interval with
    | none => false
    | some m =>
      match item.updated with
      | none => false
      | some ts =>
        let interval := wrap64 (u64_as_i64 m * 60)
        let updated := u64_as_i64 ts
        decide (0 < interval) && decide (interval ≤ wrap64 (now - updated))

/-- The `for_each` of the catch-up scan: advance the registered task of
every kept profile that has a uid with a registry entry. -/
def advancePass (tmap : List (String × TaskID × Nat)) (a : Adapter) :
    List PrfItem → Adapter
  | [] => a
  | item :: rest =>
    advancePass tmap
      (match item.uid with
       | some uid =>
         match lookupA tmap uid with
         | some (tid, _) => adapterAdvance a tid
         | none => a
       | none => a) rest

/-- The whole catch-up scan of `Timer::init`: filter the snapshot to
overdue profiles, then advance their registered tasks. -/
def catchUp (tmap : List (String × TaskID × Nat)) (a : Adapter)
    (items : List PrfItem) (now : Int) : Adapter :=
  advancePass tmap a (items.filter (overdueKeep now))

/-- `Timer::init`: no-op when already initialized; otherwise reconcile,
run the catch-up scan, and set the flag.  `none` is the `gen_map` panic. -/
def init (oracle : Oracle) (s : TimerState) (items : List PrfItem) (now : Int) :
    Option (TimerState × Except String Unit) :=
  if s.initialized then some (s, Except.ok ())
  else
    match gen_map items [] with
    | none => none
    | some nm =>
      let s1 := (refresh oracle s nm).1
      let a2 := catchUp s1.timer_map s1.delay_timer items now
      some ({ s1 with delay_timer := a2, initialized := true }, Except.ok ())

/-! ### Derived notions used in the statements -/

/-- The adapter calls a single diff entry makes in `Timer::refresh`:
`Del` removes, `Add` adds, `Mod` removes then re-adds under the same id. -/
def entryCalls (p : String × DiffFlag) : List AdapterCall :=
  match p.2 with
  | DiffFlag.Del tid => [AdapterCall.removeTask tid]
  | DiffFlag.Add tid val => [AdapterCall.addTask p.1 tid val]
  | DiffFlag.Mod tid val => [AdapterCall.removeTask tid, AdapterCall.addTask p.1 tid val]

/-- All adapter calls a diff map makes, in processing order. -/
def diffCalls (diff_map : List (String × DiffFlag)) : List AdapterCall :=
  diff_map.flatMap entryCalls

/-- The effect of one adapter call on the registered-task table: a failed
call (per the oracle) leaves the table unchanged. -/
def applyCall (oracle : Oracle) (tasks : List (TaskID × String × Nat)) :
    AdapterCall → List (TaskID × String × Nat)
  | AdapterCall.removeTask tid =>
    if oracle (AdapterCall.removeTask tid) then tasks.filter (fun t => t.1 != tid) else tasks
  | AdapterCall.addTask uid tid minutes =>
    if oracle (AdapterCall.addTask uid tid minutes) then tasks ++ [(tid, uid, minutes)]
    else tasks
  | AdapterCall.advanceTask _ => tasks

def applyCalls (oracle : Oracle) (tasks : List (TaskID × String × Nat))
    (calls : List AdapterCall) : List (TaskID × String × Nat) :=
  calls.foldl (applyCall oracle) tasks

/-- The task ids carried by the `Add` mutations of a diff map, in
allocation order. -/
def issuedIds (diff_map : List (String × DiffFlag)) : List TaskID :=
  diff_map.filterMap (fun p =>
    match p.2 with
    | DiffFlag.Add tid _ => some tid
    | _ => none)

/-- A sequence of `refresh` calls, one per desired map. -/
def refreshSeq (oracle : Oracle) (s : TimerState) :
    List (List (String × Nat)) → TimerState
  | [] => s
  | nm :: rest => refreshSeq oracle (refresh oracle s nm).1 rest

/-- All task ids issued (as `Add` mutations) across a sequence of
`refresh` calls, in allocation order. -/
def issuedSeq (oracle : Oracle) (s : TimerState) :
    List (List (String × Nat)) → List TaskID
  | [] => []
  | nm :: rest =>
    issuedIds (gen_diff s.timer_map nm s.timer_count).1 ++
      issuedSeq oracle (refresh oracle s nm).1 rest

/-- The catch-up condition as the specification states it: a profile with a
positive interval, an updated timestamp, a uid and a registry entry is
advanced exactly when `now - updated ≥ interval` with the interval
converted from minutes to seconds; any other profile is not advanced. -/
def advanceSpec (tmap : List (String × TaskID × Nat)) (now : Int)
    (item : PrfItem) : List AdapterCall :=
  match item.option with
  | some opt =>
    match opt.update_interval, item.updated, item.uid with
    | some m, some ts, some uid =>
      if 0 < m then
        match lookupA tmap uid with
        | some (tid, _) =>
          if (m : Int) * 60 ≤ now - (ts : Int) then [AdapterCall.advanceTask tid] else []
        | none => []
      else []
    | _, _, _ => []
  | none => []

/-- The advance call the catch-up `for_each` makes for one (already
filtered) profile item: advance the registered task of its uid, if any. -/
def advOne (tmap : List (String × TaskID × Nat)) (item : PrfItem) :
    List AdapterCall :=
  match item.uid with
  | some uid =>
    match lookupA tmap uid with
    | some (tid, _) => [AdapterCall.advanceTask tid]
    | none => []
  | none => []

/-- The values a profile item feeds into the catch-up scan are small enough
that the `i64` casts and arithmetic of `Timer::init` do not wrap. -/
def CatchUpNoOverflow (now : Int) (item : PrfItem) : Prop :=
  (∀ opt, item.option = some opt → ∀ m, opt.update_interval = some m →
    (m : Int) * 60 < 2 ^ 63) ∧
  (∀ ts, item.updated = some ts →
    (ts : Int) < 2 ^ 63 ∧ -(2 ^ 63) ≤ now - (ts : Int) ∧ now - (ts : Int) < 2 ^ 63)

/-! ### Data model of `crate_mihomo_api/src/lib.rs` -/

/-- `MihomoData`: the cached `/proxies` and `/providers/proxies` payloads.
The JSON value type is abstract. -/
structure MihomoData (J : Type) where
  proxies : J
  providers_proxies : J
deriving DecidableEq, Repr

/-- `MihomoManager::update_proxies`. -/
def update_proxies {J : Type} (d : MihomoData J) (proxies : J) : MihomoData J :=
  { d with proxies := proxies }

/-- `MihomoManager::update_providers_proxies`. -/
def update_providers_proxies {J : Type} (d : MihomoData J)
    (providers_proxies : J) : MihomoData J :=
  { d with providers_proxies := providers_proxies }

/-- `MihomoManager::refresh_proxies`, with the network request abstracted
by its result: `?` propagates the error before the cache is touched, and
only on success is the cached `proxies` field overwritten. -/
def refresh_proxies {J : Type} (d : MihomoData J) (response : Except String J) :
    MihomoData J × Except String Unit :=
  match response with
  | Except.error e => (d, Except.error e)
  | Except.ok proxies => (update_proxies d proxies, Except.ok ())

/-- `MihomoManager::refresh_providers_proxies`, likewise. -/
def refresh_providers_proxies {J : Type} (d : MihomoData J)
    (response : Except String J) : MihomoData J × Except String Unit :=
  match response with
  | Except.error e => (d, Except.error e)
  | Except.ok providers_proxies =>
    (update_providers_proxies d providers_proxies, Except.ok ())

/-! ### Association-list lemmas -/

theorem lookupA_eq_none_iff {α : Type} (m : List (String × α)) (u : String) :
    lookupA m u = none ↔ u ∉ keysA m := by
  induction m with
  | nil => simp [lookupA, keysA]
  | cons p rest ih =>
    obtain ⟨k', v'⟩ := p
    by_cases hu : u = k'
    · simp [lookupA, keysA, hu]
    · simp [lookupA, keysA, hu, ih]

theorem eraseA_sublist {α : Type} (m : List (String × α)) (k : String) :
    (eraseA m k).Sublist m := by
  induction m with
  | nil => simp [eraseA]
  | cons p rest ih =>
    obtain ⟨k', v'⟩ := p
    by_cases hkk : k' = k
    · simp [eraseA, hkk]
    · simpa [eraseA, hkk] using ih.cons₂ (k', v')

theorem lookupA_eraseA {α : Type} (m : List (String × α)) (k u : String)
    (hm : NodupKeys m) :
    lookupA (eraseA m k) u = if u = k then none else lookupA m u := by
  induction m with
  | nil => simp [eraseA, lookupA]
  | cons p rest ih =>
    obtain ⟨k', v'⟩ := p
    have hrest : NodupKeys rest := (List.nodup_cons.mp hm).2
    have hk' : k' ∉ keysA rest := (List.nodup_cons.mp hm).1
    by_cases hkk : k' = k
    · subst hkk
      by_cases hu : u = k'
      · subst hu
        simp [eraseA, lookupA, (lookupA_eq_none_iff rest u).mpr hk']
      · simp [eraseA, lookupA, hu]
    · by_cases hu : u = k'
      · subst hu
        have hne : ¬ (u = k) := fun h => hkk (h ▸ rfl)
        simp [eraseA, lookupA, hkk, hne]
      · simp [eraseA, lookupA, hkk, hu, ih hrest]

theorem keysA_insertA {α : Type} (m : List (String × α)) (k : String) (v : α) :
    keysA (insertA m k v) = if k ∈ keysA m then keysA m else keysA m ++ [k] := by
  induction m with
  | nil => simp [insertA, keysA]
  | cons p rest ih =>
    obtain ⟨k', v'⟩ := p
    by_cases hk : k' = k
    · subst hk
      simp [insertA, keysA]
    · have hne : k ≠ k' := fun h => hk h.symm
      have hstep : insertA ((k', v') :: rest) k v = (k', v') :: insertA rest k v := by
        simp [insertA, hk]
      have hkeys : keysA ((k', v') :: insertA rest k v) = k' :: keysA (insertA rest k v) := rfl
      have hkc : keysA ((k', v') :: rest) = k' :: keysA rest := rfl
      by_cases hmem : k ∈ keysA rest
      · have h1 : k ∈ keysA ((k', v') :: rest) := by
          rw [hkc]; exact List.mem_cons_of_mem _ hmem
        rw [hstep, hkeys, ih, if_pos hmem, if_pos h1, hkc]
      · have h1 : k ∉ keysA ((k', v') :: rest) := by
          rw [hkc]
          intro h
          rcases List.mem_cons.mp h with h | h
          · exact hne h
          · exact hmem h
        rw [hstep, hkeys, ih, if_neg hmem, if_neg h1, hkc]
        rfl

theorem lookupA_insertA {α : Type} (m : List (String × α)) (k u : String) (v : α) :
    lookupA (insertA m k v) u = if u = k then some v else lookupA m u := by
  induction m with
  | nil => simp [insertA, lookupA]
  | cons p rest ih =>
    obtain ⟨k', v'⟩ := p
    by_cases hk : k' = k
    · subst hk
      by_cases hu : u = k' <;> simp [insertA, lookupA, hu]
    · by_cases hu : u = k'
      · subst hu
        have : ¬ (u = k) := fun h => hk (h ▸ rfl)
        simp [insertA, lookupA, hk, this]
      · simp [insertA, lookupA, hk, hu, ih]

theorem nodupKeys_insertA {α : Type} (m : List (String × α)) (k : String) (v : α)
    (hm : NodupKeys m) : NodupKeys (insertA m k v) := by
  unfold NodupKeys
  rw [keysA_insertA]
  by_cases hmem : k ∈ keysA m
  · simpa [hmem] using hm
  · simp only [hmem, if_false]
    exact List.Nodup.append hm (List.nodup_singleton k)
      (by simpa [List.disjoint_singleton] using hmem)

theorem nodupKeys_eraseA {α : Type} (m : List (String × α)) (k : String)
    (hm : NodupKeys m) : NodupKeys (eraseA m k) := by
  exact hm.sublist ((eraseA_sublist m k).map Prod.fst)

theorem lookupA_eq_some_of_mem {α : Type} (m : List (String × α)) (k : String) (v : α)
    (hm : NodupKeys m) (hmem : (k, v) ∈ m) : lookupA m k = some v := by
  induction m with
  | nil => cases hmem
  | cons p rest ih =>
    obtain ⟨k', v'⟩ := p
    have hk' : k' ∉ keysA rest := (List.nodup_cons.mp hm).1
    have hrest : NodupKeys rest := (List.nodup_cons.mp hm).2
    rcases List.mem_cons.mp hmem with h | h
    · have h1 : k = k' := congrArg Prod.fst h
      have h2 : v = v' := congrArg Prod.snd h
      subst h1; subst h2
      simp [lookupA]
    · have hne : k ≠ k' := by
        intro he
        subst he
        exact hk' (List.mem_map_of_mem Prod.fst h)
      simp [lookupA, hne, ih hrest h]

theorem mem_of_lookupA_eq_some {α : Type} (m : List (String × α)) (k : String) (v : α)
    (h : lookupA m k = some v) : (k, v) ∈ m := by
  induction m with
  | nil => cases h
  | cons p rest ih =>
    obtain ⟨k', v'⟩ := p
    by_cases hk : k = k'
    · subst hk
      simp [lookupA] at h
      simp [h]
    · simp [lookupA, hk] at h
      exact List.mem_cons_of_mem _ (ih h)

theorem mem_keysA_iff_lookupA {α : Type} (m : List (String × α)) (k : String) :
    k ∈ keysA m ↔ (lookupA m k).isSome := by
  rcases h : lookupA m k with _ | v
  · simp [(lookupA_eq_none_iff m k).mp h]
  · have : k ∈ keysA m := by
      by_contra hmem
      rw [(lookupA_eq_none_iff m k).mpr hmem] at h
      cases h
    simp [this]

theorem insertA_eq_append {α : Type} (m : List (String × α)) (k : String) (v : α)
    (h : k ∉ keysA m) : insertA m k v = m ++ [(k, v)] := by
  induction m with
  | nil => simp [insertA]
  | cons p rest ih =>
    obtain ⟨k', v'⟩ := p
    have hne : k' ≠ k := by
      intro he
      exact h (he ▸ List.mem_map_of_mem Prod.fst (List.mem_cons_self _ _))
    have hrest : k ∉ keysA rest := fun hm => h (List.mem_cons_of_mem _ hm)
    simp [insertA, hne, ih hrest]

/-! ### Diff-engine lemmas -/

theorem lookupA_genDiffDels (new_map : List (String × Nat))
    (cur : List (String × TaskID × Nat)) (acc : List (String × DiffFlag))
    (u : String) (hcur : NodupKeys cur) :
    lookupA (genDiffDels new_map cur acc) u =
      match lookupA cur u with
      | some (tid, val) =>
        if (lookupA new_map u).getD 0 = 0 then some (DiffFlag.Del tid)
        else if (lookupA new_map u).getD 0 ≠ val then
          some (DiffFlag.Mod tid ((lookupA new_map u).getD 0))
        else lookupA acc u
      | none => lookupA acc u := by
  induction cur generalizing acc with
  | nil => simp [genDiffDels, lookupA]
  | cons p rest ih =>
    obtain ⟨k, tid, val⟩ := p
    have hk : k ∉ keysA rest := (List.nodup_cons.mp hcur).1
    have hrest : NodupKeys rest := (List.nodup_cons.mp hcur).2
    by_cases hu : u = k
    · subst hu
      have hnone : lookupA rest u = none := (lookupA_eq_none_iff rest u).mpr hk
      by_cases h0 : (lookupA new_map u).getD 0 = 0
      · have hstep : genDiffDels new_map ((u, tid, val) :: rest) acc =
            genDiffDels new_map rest (insertA acc u (DiffFlag.Del tid)) := by
          simp [genDiffDels, h0]
        rw [hstep, ih _ hrest, hnone]
        simp [lookupA, lookupA_insertA, h0]
      · by_cases hmod : (lookupA new_map u).getD 0 ≠ val
        · have hstep : genDiffDels new_map ((u, tid, val) :: rest) acc =
              genDiffDels new_map rest (insertA acc u
                (DiffFlag.Mod tid ((lookupA new_map u).getD 0))) := by
            simp [genDiffDels, h0, hmod]
          rw [hstep, ih _ hrest, hnone]
          simp [lookupA, lookupA_insertA, h0, hmod]
        · have hstep : genDiffDels new_map ((u, tid, val) :: rest) acc =
              genDiffDels new_map rest acc := by
            simp [genDiffDels, h0, hmod]
          rw [hstep, ih _ hrest, hnone]
          simp [lookupA, h0, hmod]
    · have hlk : lookupA ((k, tid, val) :: rest) u = lookupA rest u := by
        simp [lookupA, hu]
      by_cases h0 : (lookupA new_map k).getD 0 = 0
      · have hstep : genDiffDels new_map ((k, tid, val) :: rest) acc =
            genDiffDels new_map rest (insertA acc k (DiffFlag.Del tid)) := by
          simp [genDiffDels, h0]
        rw [hstep, ih _ hrest, hlk]
        rcases hl : lookupA rest u with _ | ⟨t, v⟩
        · simp [lookupA_insertA, hu]
        · simp [lookupA_insertA, hu]
      · by_cases hmod : (lookupA new_map k).getD 0 ≠ val
        · have hstep : genDiffDels new_map ((k, tid, val) :: rest) acc =
              genDiffDels new_map rest (insertA acc k
                (DiffFlag.Mod tid ((lookupA new_map k).getD 0))) := by
            simp [genDiffDels, h0, hmod]
          rw [hstep, ih _ hrest, hlk]
          rcases hl : lookupA rest u with _ | ⟨t, v⟩
          · simp [lookupA_insertA, hu]
          · simp [lookupA_insertA, hu]
        · have hstep : genDiffDels new_map ((k, tid, val) :: rest) acc =
              genDiffDels new_map rest acc := by
            simp [genDiffDels, h0, hmod]
          rw [hstep, ih _ hrest, hlk]

theorem genDiffAdds_count_mono (cur : List (String × TaskID × Nat))
    (new_map : List (String × Nat)) (acc : List (String × DiffFlag))
    (count : TaskID) : count ≤ (genDiffAdds cur new_map acc count).2 := by
  induction new_map generalizing acc count with
  | nil => simp [genDiffAdds]
  | cons p rest ih =>
    obtain ⟨k, val⟩ := p
    by_cases hk : lookupA cur k = none
    · simp only [genDiffAdds, hk, if_pos]
      exact le_trans (Nat.le_succ count) (ih _ _)
    · simp only [genDiffAdds, hk, if_neg, if_false]
      exact ih _ _

theorem lookupA_genDiffAdds_of_cur (cur : List (String × TaskID × Nat))
    (new_map : List (String × Nat)) (acc : List (String × DiffFlag))
    (count : TaskID) (u : String) (hu : (lookupA cur u).isSome) :
    lookupA (genDiffAdds cur new_map acc count).1 u = lookupA acc u := by
  induction new_map generalizing acc count with
  | nil => simp [genDiffAdds]
  | cons p rest ih =>
    obtain ⟨k, val⟩ := p
    by_cases hk : lookupA cur k = none
    · have hne : u ≠ k := by
        intro he
        subst he
        rw [hk] at hu
        cases hu
      simp only [genDiffAdds, hk, if_pos]
      rw [ih _ _, lookupA_insertA, if_neg hne]
    · simp only [genDiffAdds, hk, if_neg, if_false]
      exact ih _ _

theorem lookupA_genDiffAdds_of_new (cur : List (String × TaskID × Nat))
    (new_map : List (String × Nat)) (acc : List (String × DiffFlag))
    (count : TaskID) (u : String) (hnew : NodupKeys new_map)
    (hu : lookupA cur u = none) :
    (lookupA new_map u = none →
      lookupA (genDiffAdds cur new_map acc count).1 u = lookupA acc u) ∧
    (∀ w, lookupA new_map u = some w →
      ∃ c, lookupA (genDiffAdds cur new_map acc count).1 u =
          some (DiffFlag.Add c w) ∧
        count ≤ c ∧ c < (genDiffAdds cur new_map acc count).2) := by
  induction new_map generalizing acc count with
  | nil =>
    refine ⟨fun _ => by simp [genDiffAdds], fun w hw => ?_⟩
    cases hw
  | cons p rest ih =>
    obtain ⟨k, val⟩ := p
    have hk' : k ∉ keysA rest := (List.nodup_cons.mp hnew).1
    have hrest : NodupKeys rest := (List.nodup_cons.mp hnew).2
    by_cases huk : u = k
    · subst huk
      have hnone : lookupA rest u = none := (lookupA_eq_none_iff rest u).mpr hk'
      constructor
      · intro hcontra
        simp [lookupA] at hcontra
      · intro w hw
        have hval : w = val := by
          simp [lookupA] at hw
          exact hw.symm
        subst hval
        simp only [genDiffAdds, hu, if_pos]
        have h1 := (ih (insertA acc u (DiffFlag.Add count w)) (count + 1) hrest).1 hnone
        refine ⟨count, ?_, le_refl count, ?_⟩
        · rw [h1, lookupA_insertA, if_pos rfl]
        · exact lt_of_lt_of_le (Nat.lt_succ_self count) (genDiffAdds_count_mono _ _ _ _)
    · have hlk : lookupA ((k, val) :: rest) u = lookupA rest u := by
        simp [lookupA, huk]
      by_cases hck : lookupA cur k = none
      · simp only [genDiffAdds, hck, if_pos]
        have hacc : lookupA (insertA acc k (DiffFlag.Add count val)) u = lookupA acc u := by
          rw [lookupA_insertA, if_neg huk]
        constructor
        · intro hn
          rw [hlk] at hn
          rw [(ih _ (count + 1) hrest).1 hn, hacc]
        · intro w hw
          rw [hlk] at hw
          obtain ⟨c, hc1, hc2, hc3⟩ := (ih (insertA acc k (DiffFlag.Add count val))
            (count + 1) hrest).2 w hw
          exact ⟨c, hc1, le_trans (Nat.le_succ count) hc2, hc3⟩
      · simp only [genDiffAdds, hck, if_neg, if_false]
        constructor
        · intro hn
          rw [hlk] at hn
          exact (ih _ count hrest).1 hn
        · intro w hw
          rw [hlk] at hw
          exact (ih _ count hrest).2 w hw

theorem nodupKeys_genDiffDels (new_map : List (String × Nat))
    (cur : List (String × TaskID × Nat)) (acc : List (String × DiffFlag))
    (hacc : NodupKeys acc) : NodupKeys (genDiffDels new_map cur acc) := by
  induction cur generalizing acc with
  | nil => exact hacc
  | cons p rest ih =>
    obtain ⟨k, tid, val⟩ := p
    by_cases h0 : (lookupA new_map k).getD 0 = 0
    · have hstep : genDiffDels new_map ((k, tid, val) :: rest) acc =
          genDiffDels new_map rest (insertA acc k (DiffFlag.Del tid)) := by
        simp [genDiffDels, h0]
      rw [hstep]
      exact ih _ (nodupKeys_insertA _ _ _ hacc)
    · by_cases hmod : (lookupA new_map k).getD 0 ≠ val
      · have hstep : genDiffDels new_map ((k, tid, val) :: rest) acc =
            genDiffDels new_map rest (insertA acc k
              (DiffFlag.Mod tid ((lookupA new_map k).getD 0))) := by
          simp [genDiffDels, h0, hmod]
        rw [hstep]
        exact ih _ (nodupKeys_insertA _ _ _ hacc)
      · have hstep : genDiffDels new_map ((k, tid, val) :: rest) acc =
            genDiffDels new_map rest acc := by
          simp [genDiffDels, h0, hmod]
        rw [hstep]
        exact ih _ hacc

theorem nodupKeys_genDiffAdds (cur : List (String × TaskID × Nat))
    (new_map : List (String × Nat)) (acc : List (String × DiffFlag))
    (count : TaskID) (hacc : NodupKeys acc) :
    NodupKeys (genDiffAdds cur new_map acc count).1 := by
  induction new_map generalizing acc count with
  | nil => exact hacc
  | cons p rest ih =>
    obtain ⟨k, val⟩ := p
    by_cases hk : lookupA cur k = none
    · simp only [genDiffAdds, hk, if_pos]
      exact ih _ _ (nodupKeys_insertA _ _ _ hacc)
    · simp only [genDiffAdds, hk, if_neg, if_false]
      exact ih _ _ hacc

theorem nodupKeys_gen_diff (cur : List (String × TaskID × Nat))
    (new_map : List (String × Nat)) (count : TaskID) :
    NodupKeys (gen_diff cur new_map count).1 := by
  exact nodupKeys_genDiffAdds _ _ _ _
    (nodupKeys_genDiffDels _ _ _ (by simp [NodupKeys, keysA]))

theorem gen_diff_count_mono (cur : List (String × TaskID × Nat))
    (new_map : List (String × Nat)) (count : TaskID) :
    count ≤ (gen_diff cur new_map count).2 :=
  genDiffAdds_count_mono _ _ _ _

theorem gen_diff_lookup_cur (cur : List (String × TaskID × Nat))
    (new_map : List (String × Nat)) (count : TaskID) (u : String)
    (hcur : NodupKeys cur) (t : TaskID) (v : Nat)
    (hu : lookupA cur u = some (t, v)) :
    lookupA (gen_diff cur new_map count).1 u =
      if (lookupA new_map u).getD 0 = 0 then some (DiffFlag.Del t)
      else if (lookupA new_map u).getD 0 ≠ v then
        some (DiffFlag.Mod t ((lookupA new_map u).getD 0))
      else none := by
  unfold gen_diff
  rw [lookupA_genDiffAdds_of_cur _ _ _ _ _ (by simp [hu]),
    lookupA_genDiffDels _ _ _ _ hcur, hu]
  simp [lookupA]

theorem gen_diff_lookup_add (cur : List (String × TaskID × Nat))
    (new_map : List (String × Nat)) (count : TaskID) (u : String)
    (hnew : NodupKeys new_map) (hcur : NodupKeys cur)
    (hu : lookupA cur u = none) :
    (lookupA new_map u = none → lookupA (gen_diff cur new_map count).1 u = none) ∧
    (∀ w, lookupA new_map u = some w →
      ∃ c, lookupA (gen_diff cur new_map count).1 u = some (DiffFlag.Add c w) ∧
        count ≤ c ∧ c < (gen_diff cur new_map count).2) := by
  have hdels : lookupA (genDiffDels new_map cur []) u = none := by
    rw [lookupA_genDiffDels _ _ _ _ hcur, hu]
    rfl
  have h := lookupA_genDiffAdds_of_new cur new_map (genDiffDels new_map cur [])
    count u hnew hu
  constructor
  · intro hn
    rw [show gen_diff cur new_map count =
        genDiffAdds cur new_map (genDiffDels new_map cur []) count from rfl,
      h.1 hn]
    exact hdels
  · exact h.2

/-! ### Reconciler (mutation-loop) lemmas -/

theorem applyDiffs_timer_count (oracle : Oracle) (diff_map : List (String × DiffFlag))
    (s : TimerState) :
    (diff_map.foldl (applyDiff oracle) s).timer_count = s.timer_count := by
  induction diff_map generalizing s with
  | nil => rfl
  | cons p rest ih =>
    obtain ⟨k, d⟩ := p
    cases d <;> simp [List.foldl_cons, applyDiff, ih]

theorem applyDiffs_initialized (oracle : Oracle) (diff_map : List (String × DiffFlag))
    (s : TimerState) :
    (diff_map.foldl (applyDiff oracle) s).initialized = s.initialized := by
  induction diff_map generalizing s with
  | nil => rfl
  | cons p rest ih =>
    obtain ⟨k, d⟩ := p
    cases d <;> simp [List.foldl_cons, applyDiff, ih]

theorem applyDiffs_nodup (oracle : Oracle) (diff_map : List (String × DiffFlag))
    (s : TimerState) (hs : NodupKeys s.timer_map) :
    NodupKeys (diff_map.foldl (applyDiff oracle) s).timer_map := by
  induction diff_map generalizing s with
  | nil => exact hs
  | cons p rest ih =>
    obtain ⟨k, d⟩ := p
    cases d with
    | Del tid => exact ih _ (nodupKeys_eraseA _ _ hs)
    | Add tid val => exact ih _ (nodupKeys_insertA _ _ _ hs)
    | Mod tid val => exact ih _ (nodupKeys_insertA _ _ _ hs)

theorem applyDiffs_lookup_of_none (oracle : Oracle)
    (diff_map : List (String × DiffFlag)) (s : TimerState) (u : String)
    (hs : NodupKeys s.timer_map) (hd : lookupA diff_map u = none) :
    lookupA (diff_map.foldl (applyDiff oracle) s).timer_map u =
      lookupA s.timer_map u := by
  induction diff_map generalizing s with
  | nil => rfl
  | cons p rest ih =>
    obtain ⟨k, d⟩ := p
    have hne : u ≠ k := by
      intro he
      subst he
      simp [lookupA] at hd
    have hd' : lookupA rest u = none := by
      simpa [lookupA, hne] using hd
    cases d with
    | Del tid =>
      rw [List.foldl_cons, ih _ (by exact nodupKeys_eraseA _ _ hs) hd']
      show lookupA (eraseA s.timer_map k) u = _
      rw [lookupA_eraseA _ _ _ hs, if_neg hne]
    | Add tid val =>
      rw [List.foldl_cons, ih _ (by exact nodupKeys_insertA _ _ _ hs) hd']
      show lookupA (insertA s.timer_map k (tid, val)) u = _
      rw [lookupA_insertA, if_neg hne]
    | Mod tid val =>
      rw [List.foldl_cons, ih _ (by exact nodupKeys_insertA _ _ _ hs) hd']
      show lookupA (insertA s.timer_map k (tid, val)) u = _
      rw [lookupA_insertA, if_neg hne]

theorem applyDiffs_lookup (oracle : Oracle) (diff_map : List (String × DiffFlag))
    (s : TimerState) (u : String) (hdiff : NodupKeys diff_map)
    (hs : NodupKeys s.timer_map) :
    lookupA (diff_map.foldl (applyDiff oracle) s).timer_map u =
      match lookupA diff_map u with
      | some (DiffFlag.Del _) => none
      | some (DiffFlag.Add tid val) => some (tid, val)
      | some (DiffFlag.Mod tid val) => some (tid, val)
      | none => lookupA s.timer_map u := by
  induction diff_map generalizing s with
  | nil => rfl
  | cons p rest ih =>
    obtain ⟨k, d⟩ := p
    have hk : k ∉ keysA rest := (List.nodup_cons.mp hdiff).1
    have hrest : NodupKeys rest := (List.nodup_cons.mp hdiff).2
    by_cases hu : u = k
    · subst hu
      have hnone : lookupA rest u = none := (lookupA_eq_none_iff rest u).mpr hk
      cases d with
      | Del tid =>
        rw [List.foldl_cons,
          applyDiffs_lookup_of_none oracle rest _ u (nodupKeys_eraseA _ _ hs) hnone]
        show lookupA (eraseA s.timer_map u) u = _
        rw [lookupA_eraseA _ _ _ hs, if_pos rfl]
        simp [lookupA]
      | Add tid val =>
        rw [List.foldl_cons,
          applyDiffs_lookup_of_none oracle rest _ u (nodupKeys_insertA _ _ _ hs) hnone]
        show lookupA (insertA s.timer_map u (tid, val)) u = _
        rw [lookupA_insertA, if_pos rfl]
        simp [lookupA]
      | Mod tid val =>
        rw [List.foldl_cons,
          applyDiffs_lookup_of_none oracle rest _ u (nodupKeys_insertA _ _ _ hs) hnone]
        show lookupA (insertA s.timer_map u (tid, val)) u = _
        rw [lookupA_insertA, if_pos rfl]
        simp [lookupA]
    · have hlk : lookupA ((k, d) :: rest) u = lookupA rest u := by
        simp [lookupA, hu]
      rw [hlk]
      cases d with
      | Del tid =>
        rw [List.foldl_cons, ih _ hrest (nodupKeys_eraseA _ _ hs)]
        rcases hl : lookupA rest u with _ | f
        · show _ = lookupA s.timer_map u
          show lookupA (eraseA s.timer_map k) u = _
          rw [lookupA_eraseA _ _ _ hs, if_neg hu]
        · cases f <;> rfl
      | Add tid val =>
        rw [List.foldl_cons, ih _ hrest (nodupKeys_insertA _ _ _ hs)]
        rcases hl : lookupA rest u with _ | f
        · show lookupA (insertA s.timer_map k (tid, val)) u = _
          rw [lookupA_insertA, if_neg hu]
        · cases f <;> rfl
      | Mod tid val =>
        rw [List.foldl_cons, ih _ hrest (nodupKeys_insertA _ _ _ hs)]
        rcases hl : lookupA rest u with _ | f
        · show lookupA (insertA s.timer_map k (tid, val)) u = _
          rw [lookupA_insertA, if_neg hu]
        · cases f <;> rfl

/-! ### `refresh` characterization -/

theorem refresh_fst (oracle : Oracle) (s : TimerState) (new_map : List (String × Nat)) :
    (refresh oracle s new_map).1 =
      (gen_diff s.timer_map new_map s.timer_count).1.foldl (applyDiff oracle)
        { s with timer_count := (gen_diff s.timer_map new_map s.timer_count).2 } := rfl

theorem refresh_timer_count (oracle : Oracle) (s : TimerState)
    (new_map : List (String × Nat)) :
    (refresh oracle s new_map).1.timer_count =
      (gen_diff s.timer_map new_map s.timer_count).2 := by
  rw [refresh_fst, applyDiffs_timer_count]

theorem refresh_nodup (oracle : Oracle) (s : TimerState)
    (new_map : List (String × Nat)) (hs : NodupKeys s.timer_map) :
    NodupKeys (refresh oracle s new_map).1.timer_map := by
  rw [refresh_fst]
  exact applyDiffs_nodup _ _ _ hs

theorem refresh_lookup_none (oracle : Oracle) (s : TimerState)
    (new_map : List (String × Nat)) (u : String) (hs : NodupKeys s.timer_map)
    (hnew : NodupKeys new_map) (hn : lookupA new_map u = none) :
    lookupA (refresh oracle s new_map).1.timer_map u = none := by
  rw [refresh_fst]
  rw [applyDiffs_lookup _ _ _ _ (nodupKeys_gen_diff _ _ _) (by exact hs)]
  rcases hc : lookupA s.timer_map u with _ | ⟨t, v⟩
  · rw [(gen_diff_lookup_add _ _ s.timer_count _ hnew hs hc).1 hn]
  · rw [gen_diff_lookup_cur _ _ s.timer_count _ hs t v hc, hn]
    simp

theorem refresh_lookup_mod (oracle : Oracle) (s : TimerState)
    (new_map : List (String × Nat)) (u : String) (t : TaskID) (v w : Nat)
    (hs : NodupKeys s.timer_map) (hpos : ∀ p ∈ new_map, 0 < p.2)
    (hc : lookupA s.timer_map u = some (t, v)) (hn : lookupA new_map u = some w) :
    lookupA (refresh oracle s new_map).1.timer_map u = some (t, w) := by
  have hw : 0 < w := hpos (u, w) (mem_of_lookupA_eq_some _ _ _ hn)
  rw [refresh_fst, applyDiffs_lookup _ _ _ _ (nodupKeys_gen_diff _ _ _) (by exact hs),
    gen_diff_lookup_cur _ _ s.timer_count _ hs t v hc, hn]
  by_cases hvw : w = v
  · subst hvw
    simp [Nat.pos_iff_ne_zero.mp hw, hc]
  · simp only [Option.getD_some]
    rw [if_neg (Nat.pos_iff_ne_zero.mp hw), if_pos hvw]

theorem refresh_lookup_add (oracle : Oracle) (s : TimerState)
    (new_map : List (String × Nat)) (u : String) (w : Nat)
    (hs : NodupKeys s.timer_map) (hnew : NodupKeys new_map)
    (hc : lookupA s.timer_map u = none) (hn : lookupA new_map u = some w) :
    ∃ c, lookupA (refresh oracle s new_map).1.timer_map u = some (c, w) ∧
      s.timer_count ≤ c ∧ c < (refresh oracle s new_map).1.timer_count := by
  obtain ⟨c, hca, hc1, hc2⟩ :=
    (gen_diff_lookup_add s.timer_map new_map s.timer_count u hnew hs hc).2 w hn
  refine ⟨c, ?_, hc1, ?_⟩
  · rw [refresh_fst, applyDiffs_lookup _ _ _ _ (nodupKeys_gen_diff _ _ _) (by exact hs), hca]
  · rw [refresh_timer_count]
    exact hc2

/-! ### Structural emptiness of the diff on a synchronized registry -/

theorem genDiffDels_id (new_map : List (String × Nat))
    (cur : List (String × TaskID × Nat)) (acc : List (String × DiffFlag))
    (h : ∀ p ∈ cur, lookupA new_map p.1 = some p.2.2 ∧ p.2.2 ≠ 0) :
    genDiffDels new_map cur acc = acc := by
  induction cur generalizing acc with
  | nil => rfl
  | cons p rest ih =>
    obtain ⟨k, tid, val⟩ := p
    obtain ⟨hlk, hval⟩ := h (k, tid, val) (List.mem_cons_self _ _)
    have hstep : genDiffDels new_map ((k, tid, val) :: rest) acc =
        genDiffDels new_map rest acc := by
      simp only [genDiffDels] at *
      rw [hlk]
      simp [hval]
    rw [hstep]
    exact ih _ (fun q hq => h q (List.mem_cons_of_mem _ hq))

theorem genDiffAdds_id (cur : List (String × TaskID × Nat))
    (new_map : List (String × Nat)) (acc : List (String × DiffFlag))
    (count : TaskID) (h : ∀ p ∈ new_map, (lookupA cur p.1).isSome) :
    genDiffAdds cur new_map acc count = (acc, count) := by
  induction new_map generalizing acc count with
  | nil => rfl
  | cons p rest ih =>
    obtain ⟨k, val⟩ := p
    have hk : ¬ (lookupA cur k = none) := by
      have := h (k, val) (List.mem_cons_self _ _)
      intro hcontra
      rw [hcontra] at this
      cases this
    simp only [genDiffAdds, hk, if_neg, if_false]
    exact ih _ _ (fun q hq => h q (List.mem_cons_of_mem _ hq))

/-! ### Claim theorems: diff engine and reconciler -/

/-- C1: for a registry and a desired map of positive intervals, `gen_diff`
produces exactly `Del(task_id)` for a uid scheduled but absent from the
desired map, `Mod(task_id, new_interval)` (same task id) for a uid in both
with a different interval, `Add(fresh_id, interval)` for a uid only in the
desired map, and no mutation for a uid in both with equal interval. -/
theorem gen_diff_mutation_spec (cur_map : List (String × TaskID × Nat))
    (new_map : List (String × Nat)) (count : TaskID)
    (hcur : NodupKeys cur_map) (hnew : NodupKeys new_map)
    (hpos : ∀ p ∈ new_map, 0 < p.2) (u : String) :
    (∀ t v, lookupA cur_map u = some (t, v) → lookupA new_map u = none →
      lookupA (gen_diff cur_map new_map count).1 u = some (DiffFlag.Del t)) ∧
    (∀ t v w, lookupA cur_map u = some (t, v) → lookupA new_map u = some w →
      w ≠ v →
      lookupA (gen_diff cur_map new_map count).1 u = some (DiffFlag.Mod t w)) ∧
    (∀ w, lookupA cur_map u = none → lookupA new_map u = some w →
      ∃ c, lookupA (gen_diff cur_map new_map count).1 u = some (DiffFlag.Add c w) ∧
        count ≤ c) ∧
    (∀ t v, lookupA cur_map u = some (t, v) → lookupA new_map u = some v →
      lookupA (gen_diff cur_map new_map count).1 u = none) ∧
    (lookupA cur_map u = none → lookupA new_map u = none →
      lookupA (gen_diff cur_map new_map count).1 u = none) := by
  refine ⟨?_, ?_, ?_, ?_, ?_⟩
  · intro t v hc hn
    rw [gen_diff_lookup_cur _ _ count _ hcur t v hc, hn]
    simp
  · intro t v w hc hn hvw
    have hw : 0 < w := hpos (u, w) (mem_of_lookupA_eq_some _ _ _ hn)
    rw [gen_diff_lookup_cur _ _ count _ hcur t v hc, hn]
    simp only [Option.getD_some]
    rw [if_neg (Nat.pos_iff_ne_zero.mp hw), if_pos hvw]
  · intro w hc hn
    obtain ⟨c, h1, h2, _⟩ := (gen_diff_lookup_add _ _ count _ hnew hcur hc).2 w hn
    exact ⟨c, h1, h2⟩
  · intro t v hc hn
    have hv : 0 < v := hpos (u, v) (mem_of_lookupA_eq_some _ _ _ hn)
    rw [gen_diff_lookup_cur _ _ count _ hcur t v hc, hn]
    simp [Nat.pos_iff_ne_zero.mp hv]
  · intro hc hn
    exact (gen_diff_lookup_add _ _ count _ hnew hcur hc).1 hn

theorem gen_diff_mutation_spec_witness :
    lookupA (gen_diff [("A", (1, 30)), ("B", (2, 60)), ("D", (4, 10))]
        [("B", 45), ("C", 20), ("D", 10)] 5).1 "A" = some (DiffFlag.Del 1) ∧
    lookupA (gen_diff [("A", (1, 30)), ("B", (2, 60)), ("D", (4, 10))]
        [("B", 45), ("C", 20), ("D", 10)] 5).1 "B" = some (DiffFlag.Mod 2 45) ∧
    (∃ c, lookupA (gen_diff [("A", (1, 30)), ("B", (2, 60)), ("D", (4, 10))]
        [("B", 45), ("C", 20), ("D", 10)] 5).1 "C" = some (DiffFlag.Add c 20) ∧
      5 ≤ c) ∧
    lookupA (gen_diff [("A", (1, 30)), ("B", (2, 60)), ("D", (4, 10))]
        [("B", 45), ("C", 20), ("D", 10)] 5).1 "D" = none := by
  refine ⟨?_, ?_, ?_, ?_⟩
  · exact (gen_diff_mutation_spec _ _ 5 (by decide) (by decide) (by decide) "A").1
      1 30 (by decide) (by decide)
  · exact (gen_diff_mutation_spec _ _ 5 (by decide) (by decide) (by decide) "B").2.1
      2 60 45 (by decide) (by decide) (by decide)
  · exact (gen_diff_mutation_spec _ _ 5 (by decide) (by decide) (by decide) "C").2.2.1
      20 (by decide) (by decide)
  · exact (gen_diff_mutation_spec _ _ 5 (by decide) (by decide) (by decide) "D").2.2.2.1
      4 10 (by decide) (by decide)

/-- C7: reconciling the desired map `{A:30, B:60}` against the fresh empty
state produces exactly the two `Add` mutations with ids 1 and 2, in
allocation order, and afterwards the registry is `{A:(1,30), B:(2,60)}`. -/
theorem reconcile_empty_registry_example :
    gen_diff globalInit.timer_map [("A", 30), ("B", 60)] globalInit.timer_count =
      ([("A", DiffFlag.Add 1 30), ("B", DiffFlag.Add 2 60)], 3) ∧
    (refresh allOk globalInit [("A", 30), ("B", 60)]).1.timer_map =
      [("A", (1, 30)), ("B", (2, 60))] := by
  decide

/-- C2: after one `refresh` has applied its mutations, the diff of the
post-refresh registry against the same desired map is empty, so a second
`refresh` against the unchanged desired map changes nothing and returns
`Ok(())`. -/
theorem refresh_idempotent (oracle : Oracle) (s : TimerState)
    (new_map : List (String × Nat)) (hs : NodupKeys s.timer_map)
    (hnew : NodupKeys new_map) (hpos : ∀ p ∈ new_map, 0 < p.2) :
    gen_diff (refresh oracle s new_map).1.timer_map new_map
        (refresh oracle s new_map).1.timer_count =
      ([], (refresh oracle s new_map).1.timer_count) ∧
    ∀ oracle2, refresh oracle2 (refresh oracle s new_map).1 new_map =
      ((refresh oracle s new_map).1, Except.ok ()) := by
  set s1 := (refresh oracle s new_map).1 with hs1
  have hns1 : NodupKeys s1.timer_map := refresh_nodup oracle s new_map hs
  have hcur : ∀ p ∈ s1.timer_map, lookupA new_map p.1 = some p.2.2 ∧ p.2.2 ≠ 0 := by
    rintro ⟨uid, t, v⟩ hp
    show lookupA new_map uid = some v ∧ v ≠ 0
    have hl : lookupA s1.timer_map uid = some (t, v) :=
      lookupA_eq_some_of_mem _ _ _ hns1 hp
    rcases hw : lookupA new_map uid with _ | w
    · rw [hs1, refresh_lookup_none oracle s new_map uid hs hnew hw] at hl
      cases hl
    · have hpw : 0 < w := hpos (uid, w) (mem_of_lookupA_eq_some _ _ _ hw)
      rcases hcs : lookupA s.timer_map uid with _ | ⟨t0, v0⟩
      · obtain ⟨c, hc1, _, _⟩ :=
          refresh_lookup_add oracle s new_map uid w hs hnew hcs hw
        have heq : (c, w) = (t, v) := Option.some.inj ((hs1 ▸ hc1).symm.trans hl)
        have hv : w = v := congrArg Prod.snd heq
        subst hv
        exact ⟨rfl, Nat.pos_iff_ne_zero.mp hpw⟩
      · have hm := refresh_lookup_mod oracle s new_map uid t0 v0 w hs hpos hcs hw
        have heq : (t0, w) = (t, v) := Option.some.inj ((hs1 ▸ hm).symm.trans hl)
        have hv : w = v := congrArg Prod.snd heq
        subst hv
        exact ⟨rfl, Nat.pos_iff_ne_zero.mp hpw⟩
  have hnewAll : ∀ p ∈ new_map, (lookupA s1.timer_map p.1).isSome := by
    rintro ⟨uid, w⟩ hp
    show (lookupA s1.timer_map uid).isSome
    have hw : lookupA new_map uid = some w := lookupA_eq_some_of_mem _ _ _ hnew hp
    rcases hcs : lookupA s.timer_map uid with _ | ⟨t0, v0⟩
    · obtain ⟨c, hc1, _, _⟩ :=
        refresh_lookup_add oracle s new_map uid w hs hnew hcs hw
      rw [hs1, hc1]
      rfl
    · rw [hs1, refresh_lookup_mod oracle s new_map uid t0 v0 w hs hpos hcs hw]
      rfl
  have hdiff : gen_diff s1.timer_map new_map s1.timer_count =
      ([], s1.timer_count) := by
    unfold gen_diff
    rw [genDiffDels_id _ _ _ hcur]
    exact genDiffAdds_id _ _ _ _ hnewAll
  refine ⟨hdiff, fun oracle2 => ?_⟩
  show ((gen_diff s1.timer_map new_map s1.timer_count).1.foldl (applyDiff oracle2)
      { s1 with timer_count := (gen_diff s1.timer_map new_map s1.timer_count).2 },
    Except.ok ()) = (s1, Except.ok ())
  rw [hdiff]
  rfl

theorem refresh_idempotent_witness :
    refresh allOk (refresh allOk globalInit [("A", 30)]).1 [("A", 30)] =
      ((refresh allOk globalInit [("A", 30)]).1, Except.ok ()) :=
  (refresh_idempotent allOk globalInit [("A", 30)] (by decide) (by decide)
    (by decide)).2 allOk

theorem tid_stable_seq (oracle : Oracle) (u : String) (t : TaskID) :
    ∀ (maps : List (List (String × Nat))) (s : TimerState) (v : Nat),
      NodupKeys s.timer_map → lookupA s.timer_map u = some (t, v) →
      (∀ m' ∈ maps, NodupKeys m' ∧ (∀ p ∈ m', 0 < p.2) ∧ (lookupA m' u).isSome) →
      ∃ vv, lookupA (refreshSeq oracle s maps).timer_map u = some (t, vv)
  | [], _, v, _, hu, _ => ⟨v, hu⟩
  | nm :: rest, s, v, hs, hu, hmaps => by
    obtain ⟨hnm, hpos, hsome⟩ := hmaps nm (List.mem_cons_self _ _)
    rcases hw : lookupA nm u with _ | w
    · rw [hw] at hsome
      cases hsome
    · have h1 := refresh_lookup_mod oracle s nm u t v w hs hpos hu hw
      exact tid_stable_seq oracle u t rest (refresh oracle s nm).1 w
        (refresh_nodup oracle s nm hs) h1
        (fun m' hm' => hmaps m' (List.mem_cons_of_mem _ hm'))

/-- C6: when a scheduled uid's desired interval changes, the `Mod` mutation
carries the task id already recorded in the registry, the registry entry is
updated in place to the same task id with the new interval, and the task id
stays fixed across any number of further reconciliations that keep the uid
scheduled. -/
theorem mod_keeps_task_id (oracle : Oracle) (s : TimerState)
    (new_map : List (String × Nat)) (u : String) (t : TaskID) (v w : Nat)
    (hs : NodupKeys s.timer_map) (_hnew : NodupKeys new_map)
    (hpos : ∀ p ∈ new_map, 0 < p.2)
    (hc : lookupA s.timer_map u = some (t, v)) (hn : lookupA new_map u = some w)
    (hvw : w ≠ v) :
    lookupA (gen_diff s.timer_map new_map s.timer_count).1 u =
      some (DiffFlag.Mod t w) ∧
    lookupA (refresh oracle s new_map).1.timer_map u = some (t, w) ∧
    ∀ maps, (∀ m' ∈ maps, NodupKeys m' ∧ (∀ p ∈ m', 0 < p.2) ∧
        (lookupA m' u).isSome) →
      ∃ vv, lookupA (refreshSeq oracle s maps).timer_map u = some (t, vv) := by
  refine ⟨?_, ?_, ?_⟩
  · have hw : 0 < w := hpos (u, w) (mem_of_lookupA_eq_some _ _ _ hn)
    rw [gen_diff_lookup_cur _ _ s.timer_count _ hs t v hc, hn]
    simp only [Option.getD_some]
    rw [if_neg (Nat.pos_iff_ne_zero.mp hw), if_pos hvw]
  · exact refresh_lookup_mod oracle s new_map u t v w hs hpos hc hn
  · exact fun maps hmaps => tid_stable_seq oracle u t maps s v hs hc hmaps

theorem mod_keeps_task_id_witness :
    lookupA (gen_diff [("B", (2, 60))] [("B", 45)] 3).1 "B" =
      some (DiffFlag.Mod 2 45) ∧
    lookupA (refresh allOk
        { timer_map := [("B", (2, 60))], timer_count := 3, initialized := true,
          delay_timer := { tasks := [], attempted := [] } }
        [("B", 45)]).1.timer_map "B" = some (2, 45) := by
  have h := mod_keeps_task_id allOk
    { timer_map := [("B", (2, 60))], timer_count := 3, initialized := true,
      delay_timer := { tasks := [], attempted := [] } }
    [("B", 45)] "B" 2 60 45 (by decide) (by decide) (by decide) (by decide)
    (by decide) (by decide)
  exact ⟨h.1, h.2.1⟩

/-! ### Adapter-call bookkeeping for the error-isolation claim -/

theorem adapterRemove_attempted (oracle : Oracle) (a : Adapter) (tid : TaskID) :
    (adapterRemove oracle a tid).attempted =
      a.attempted ++ [AdapterCall.removeTask tid] := by
  by_cases h : oracle (AdapterCall.removeTask tid) <;> simp [adapterRemove, h]

theorem adapterAdd_attempted (oracle : Oracle) (a : Adapter) (uid : String)
    (tid : TaskID) (minutes : Nat) :
    (adapterAdd oracle a uid tid minutes).attempted =
      a.attempted ++ [AdapterCall.addTask uid tid minutes] := by
  by_cases h : oracle (AdapterCall.addTask uid tid minutes) <;>
    simp [adapterAdd, h]

theorem adapterRemove_tasks (oracle : Oracle) (a : Adapter) (tid : TaskID) :
    (adapterRemove oracle a tid).tasks =
      applyCall oracle a.tasks (AdapterCall.removeTask tid) := by
  by_cases h : oracle (AdapterCall.removeTask tid) <;>
    simp [adapterRemove, applyCall, h]

theorem adapterAdd_tasks (oracle : Oracle) (a : Adapter) (uid : String)
    (tid : TaskID) (minutes : Nat) :
    (adapterAdd oracle a uid tid minutes).tasks =
      applyCall oracle a.tasks (AdapterCall.addTask uid tid minutes) := by
  by_cases h : oracle (AdapterCall.addTask uid tid minutes) <;>
    simp [adapterAdd, applyCall, h]

theorem applyDiffs_attempted (oracle : Oracle) (diff_map : List (String × DiffFlag))
    (s : TimerState) :
    (diff_map.foldl (applyDiff oracle) s).delay_timer.attempted =
      s.delay_timer.attempted ++ diffCalls diff_map := by
  induction diff_map generalizing s with
  | nil => simp [diffCalls]
  | cons p rest ih =>
    obtain ⟨k, d⟩ := p
    have hcalls : diffCalls ((k, d) :: rest) = entryCalls (k, d) ++ diffCalls rest := by
      simp [diffCalls]
    rw [List.foldl_cons, ih, hcalls]
    cases d with
    | Del tid =>
      show (adapterRemove oracle s.delay_timer tid).attempted ++ _ = _
      rw [adapterRemove_attempted]
      simp [entryCalls]
    | Add tid val =>
      show (adapterAdd oracle s.delay_timer k tid val).attempted ++ _ = _
      rw [adapterAdd_attempted]
      simp [entryCalls]
    | Mod tid val =>
      show (adapterAdd oracle (adapterRemove oracle s.delay_timer tid)
        k tid val).attempted ++ _ = _
      rw [adapterAdd_attempted, adapterRemove_attempted]
      simp [entryCalls]

theorem applyDiffs_tasks (oracle : Oracle) (diff_map : List (String × DiffFlag))
    (s : TimerState) :
    (diff_map.foldl (applyDiff oracle) s).delay_timer.tasks =
      applyCalls oracle s.delay_timer.tasks (diffCalls diff_map) := by
  induction diff_map generalizing s with
  | nil => simp [diffCalls, applyCalls]
  | cons p rest ih =>
    obtain ⟨k, d⟩ := p
    have hcalls : diffCalls ((k, d) :: rest) = entryCalls (k, d) ++ diffCalls rest := by
      simp [diffCalls]
    have happ : ∀ tasks l1 l2, applyCalls oracle tasks (l1 ++ l2) =
        applyCalls oracle (applyCalls oracle tasks l1) l2 := by
      intro tasks l1 l2
      simp [applyCalls, List.foldl_append]
    rw [List.foldl_cons, ih, hcalls, happ]
    cases d with
    | Del tid =>
      show applyCalls oracle (adapterRemove oracle s.delay_timer tid).tasks _ = _
      rw [adapterRemove_tasks]
      rfl
    | Add tid val =>
      show applyCalls oracle (adapterAdd oracle s.delay_timer k tid val).tasks _ = _
      rw [adapterAdd_tasks]
      rfl
    | Mod tid val =>
      show applyCalls oracle (adapterAdd oracle (adapterRemove oracle s.delay_timer tid)
        k tid val).tasks _ = _
      rw [adapterAdd_tasks, adapterRemove_tasks]
      rfl

theorem applyDiffs_timer_map_oracle_free (o1 o2 : Oracle)
    (diff_map : List (String × DiffFlag)) :
    ∀ (s s' : TimerState), s.timer_map = s'.timer_map →
      (diff_map.foldl (applyDiff o1) s).timer_map =
        (diff_map.foldl (applyDiff o2) s').timer_map := by
  induction diff_map with
  | nil => exact fun s s' h => h
  | cons p rest ih =>
    intro s s' h
    obtain ⟨k, d⟩ := p
    cases d with
    | Del tid =>
      exact ih _ _ (by show eraseA s.timer_map k = eraseA s'.timer_map k; rw [h])
    | Add tid val =>
      exact ih _ _
        (by show insertA s.timer_map k (tid, val) = insertA s'.timer_map k (tid, val)
            rw [h])
    | Mod tid val =>
      exact ih _ _
        (by show insertA s.timer_map k (tid, val) = insertA s'.timer_map k (tid, val)
            rw [h])

/-- C8: an adapter failure during a mutation batch (modelled by the oracle
deciding which adapter calls fail) never aborts the batch: `refresh` still
returns `Ok(())`, the registry and the allocator end up the same as under
an all-succeeding adapter, every mutation's adapter calls are still
attempted in full, and each successful call's effect is applied. -/
theorem refresh_error_isolation (o1 o2 : Oracle) (s : TimerState)
    (new_map : List (String × Nat)) :
    (refresh o1 s new_map).2 = Except.ok () ∧
    (refresh o1 s new_map).1.timer_map = (refresh o2 s new_map).1.timer_map ∧
    (refresh o1 s new_map).1.timer_count = (refresh o2 s new_map).1.timer_count ∧
    (refresh o1 s new_map).1.delay_timer.attempted =
      s.delay_timer.attempted ++
        diffCalls (gen_diff s.timer_map new_map s.timer_count).1 ∧
    (refresh o1 s new_map).1.delay_timer.tasks =
      applyCalls o1 s.delay_timer.tasks
        (diffCalls (gen_diff s.timer_map new_map s.timer_count).1) := by
  refine ⟨rfl, ?_, ?_, ?_, ?_⟩
  · rw [refresh_fst, refresh_fst]
    exact applyDiffs_timer_map_oracle_free o1 o2 _ _ _ rfl
  · rw [refresh_timer_count, refresh_timer_count]
  · rw [refresh_fst, applyDiffs_attempted]
  · rw [refresh_fst, applyDiffs_tasks]

/-! ### Issued-identifier lemmas for the allocator claim -/

theorem keysA_append {α : Type} (l1 l2 : List (String × α)) :
    keysA (l1 ++ l2) = keysA l1 ++ keysA l2 := by
  simp [keysA]

theorem issuedIds_append (l1 l2 : List (String × DiffFlag)) :
    issuedIds (l1 ++ l2) = issuedIds l1 ++ issuedIds l2 := by
  simp [issuedIds]

theorem mem_keysA_genDiffDels (new_map : List (String × Nat))
    (cur : List (String × TaskID × Nat)) (acc : List (String × DiffFlag))
    (u : String) (h : u ∈ keysA (genDiffDels new_map cur acc)) :
    u ∈ keysA acc ∨ u ∈ keysA cur := by
  induction cur generalizing acc with
  | nil => exact Or.inl h
  | cons p rest ih =>
    obtain ⟨k, tid, val⟩ := p
    have hmem : ∀ d, u ∈ keysA (insertA acc k d) → u ∈ keysA acc ∨ u = k := by
      intro d hm
      rw [keysA_insertA] at hm
      by_cases hk : k ∈ keysA acc
      · rw [if_pos hk] at hm
        exact Or.inl hm
      · rw [if_neg hk] at hm
        rcases List.mem_append.mp hm with hm | hm
        · exact Or.inl hm
        · exact Or.inr (List.mem_singleton.mp hm)
    have hout : ∀ x, u ∈ keysA acc ∨ u = x → x ∈ keysA ((k, tid, val) :: rest) →
        u ∈ keysA acc ∨ u ∈ keysA ((k, tid, val) :: rest) := by
      intro x hx hxin
      rcases hx with hx | hx
      · exact Or.inl hx
      · exact Or.inr (hx ▸ hxin)
    by_cases h0 : (lookupA new_map k).getD 0 = 0
    · have hstep : genDiffDels new_map ((k, tid, val) :: rest) acc =
          genDiffDels new_map rest (insertA acc k (DiffFlag.Del tid)) := by
        simp [genDiffDels, h0]
      rw [hstep] at h
      rcases ih _ h with h' | h'
      · exact hout k (hmem _ h') (by simp [keysA])
      · exact Or.inr (by simp [keysA] at h' ⊢; exact Or.inr h')
    · by_cases hmod : (lookupA new_map k).getD 0 ≠ val
      · have hstep : genDiffDels new_map ((k, tid, val) :: rest) acc =
            genDiffDels new_map rest (insertA acc k
              (DiffFlag.Mod tid ((lookupA new_map k).getD 0))) := by
          simp [genDiffDels, h0, hmod]
        rw [hstep] at h
        rcases ih _ h with h' | h'
        · exact hout k (hmem _ h') (by simp [keysA])
        · exact Or.inr (by simp [keysA] at h' ⊢; exact Or.inr h')
      · have hstep : genDiffDels new_map ((k, tid, val) :: rest) acc =
            genDiffDels new_map rest acc := by
          simp [genDiffDels, h0, hmod]
        rw [hstep] at h
        rcases ih _ h with h' | h'
        · exact Or.inl h'
        · exact Or.inr (by simp [keysA] at h' ⊢; exact Or.inr h')

theorem genDiffDels_issued (new_map : List (String × Nat))
    (cur : List (String × TaskID × Nat)) (acc : List (String × DiffFlag))
    (hcur : NodupKeys cur) (hdisj : ∀ p ∈ cur, p.1 ∉ keysA acc) :
    issuedIds (genDiffDels new_map cur acc) = issuedIds acc := by
  induction cur generalizing acc with
  | nil => rfl
  | cons p rest ih =>
    obtain ⟨k, tid, val⟩ := p
    have hk : k ∉ keysA rest := (List.nodup_cons.mp hcur).1
    have hrest : NodupKeys rest := (List.nodup_cons.mp hcur).2
    have hknot : k ∉ keysA acc := hdisj (k, tid, val) (List.mem_cons_self _ _)
    have hdisj' : ∀ d, ∀ p' ∈ rest, p'.1 ∉ keysA (insertA acc k d) := by
      intro d p' hp'
      rw [insertA_eq_append _ _ _ hknot, keysA_append]
      intro hmem
      rcases List.mem_append.mp hmem with hm | hm
      · exact hdisj p' (List.mem_cons_of_mem _ hp') hm
      · have : p'.1 = k := by simpa [keysA] using hm
        exact hk (this ▸ List.mem_map_of_mem Prod.fst hp')
    by_cases h0 : (lookupA new_map k).getD 0 = 0
    · have hstep : genDiffDels new_map ((k, tid, val) :: rest) acc =
          genDiffDels new_map rest (insertA acc k (DiffFlag.Del tid)) := by
        simp [genDiffDels, h0]
      rw [hstep, ih _ hrest (hdisj' _), insertA_eq_append _ _ _ hknot,
        issuedIds_append]
      simp [issuedIds]
    · by_cases hmod : (lookupA new_map k).getD 0 ≠ val
      · have hstep : genDiffDels new_map ((k, tid, val) :: rest) acc =
            genDiffDels new_map rest (insertA acc k
              (DiffFlag.Mod tid ((lookupA new_map k).getD 0))) := by
          simp [genDiffDels, h0, hmod]
        rw [hstep, ih _ hrest (hdisj' _), insertA_eq_append _ _ _ hknot,
          issuedIds_append]
        simp [issuedIds]
      · have hstep : genDiffDels new_map ((k, tid, val) :: rest) acc =
            genDiffDels new_map rest acc := by
          simp [genDiffDels, h0, hmod]
        rw [hstep, ih _ hrest (fun p' hp' => hdisj p' (List.mem_cons_of_mem _ hp'))]

theorem genDiffAdds_issued (cur : List (String × TaskID × Nat))
    (new_map : List (String × Nat)) (acc : List (String × DiffFlag))
    (count : TaskID) (hnew : NodupKeys new_map)
    (hdisj : ∀ p ∈ new_map, lookupA cur p.1 = none → p.1 ∉ keysA acc) :
    ∃ k, (genDiffAdds cur new_map acc count).2 = count + k ∧
      issuedIds (genDiffAdds cur new_map acc count).1 =
        issuedIds acc ++ List.range' count k := by
  induction new_map generalizing acc count with
  | nil => exact ⟨0, rfl, by simp [genDiffAdds]⟩
  | cons p rest ih =>
    obtain ⟨q, val⟩ := p
    have hq : q ∉ keysA rest := (List.nodup_cons.mp hnew).1
    have hrest : NodupKeys rest := (List.nodup_cons.mp hnew).2
    by_cases hck : lookupA cur q = none
    · have hqnot : q ∉ keysA acc := hdisj (q, val) (List.mem_cons_self _ _) hck
      have hdisj' : ∀ p' ∈ rest, lookupA cur p'.1 = none →
          p'.1 ∉ keysA (insertA acc q (DiffFlag.Add count val)) := by
        intro p' hp' hc'
        rw [insertA_eq_append _ _ _ hqnot, keysA_append]
        intro hmem
        rcases List.mem_append.mp hmem with hm | hm
        · exact hdisj p' (List.mem_cons_of_mem _ hp') hc' hm
        · have : p'.1 = q := by simpa [keysA] using hm
          exact hq (this ▸ List.mem_map_of_mem Prod.fst hp')
      obtain ⟨k, hk1, hk2⟩ := ih (insertA acc q (DiffFlag.Add count val))
        (count + 1) hrest hdisj'
      have hstep : genDiffAdds cur ((q, val) :: rest) acc count =
          genDiffAdds cur rest (insertA acc q (DiffFlag.Add count val))
            (count + 1) := by
        simp [genDiffAdds, hck]
      refine ⟨k + 1, ?_, ?_⟩
      · rw [hstep, hk1, Nat.add_assoc, Nat.add_comm 1 k]
      · rw [hstep, hk2, insertA_eq_append _ _ _ hqnot, issuedIds_append]
        have hsing : issuedIds [(q, DiffFlag.Add count val)] = [count] := rfl
        rw [hsing, List.range'_succ, List.append_assoc]
        rfl
    · have hstep : genDiffAdds cur ((q, val) :: rest) acc count =
          genDiffAdds cur rest acc count := by
        simp [genDiffAdds, hck]
      rw [hstep]
      exact ih acc count hrest
        (fun p' hp' hc' => hdisj p' (List.mem_cons_of_mem _ hp') hc')

theorem gen_diff_issued (cur : List (String × TaskID × Nat))
    (new_map : List (String × Nat)) (count : TaskID)
    (hcur : NodupKeys cur) (hnew : NodupKeys new_map) :
    ∃ k, (gen_diff cur new_map count).2 = count + k ∧
      issuedIds (gen_diff cur new_map count).1 = List.range' count k := by
  have hdisj : ∀ p ∈ new_map, lookupA cur p.1 = none →
      p.1 ∉ keysA (genDiffDels new_map cur []) := by
    intro p hp hc hmem
    rcases mem_keysA_genDiffDels _ _ _ _ hmem with h | h
    · simp [keysA] at h
    · rw [mem_keysA_iff_lookupA, hc] at h
      cases h
  obtain ⟨k, hk1, hk2⟩ := genDiffAdds_issued cur new_map
    (genDiffDels new_map cur []) count hnew hdisj
  refine ⟨k, hk1, ?_⟩
  rw [show gen_diff cur new_map count =
      genDiffAdds cur new_map (genDiffDels new_map cur []) count from rfl, hk2,
    genDiffDels_issued _ _ _ hcur (by intro p hp; simp [keysA])]
  rfl

theorem refreshSeq_count_mono (oracle : Oracle)
    (maps : List (List (String × Nat))) :
    ∀ s : TimerState, s.timer_count ≤ (refreshSeq oracle s maps).timer_count := by
  induction maps with
  | nil => exact fun s => le_refl _
  | cons nm rest ih =>
    intro s
    have h1 : s.timer_count ≤ (refresh oracle s nm).1.timer_count := by
      rw [refresh_timer_count]
      exact gen_diff_count_mono _ _ _
    exact le_trans h1 (ih _)

theorem mem_range'_bounds : ∀ (k c i : Nat), i ∈ List.range' c k → c ≤ i ∧ i < c + k
  | 0, _, _, h => absurd h (by simp)
  | k + 1, c, i, h => by
    rw [List.range'_succ] at h
    rcases List.mem_cons.mp h with h | h
    · omega
    · have := mem_range'_bounds k (c + 1) i h
      omega

theorem range'_pairwise_lt : ∀ (k c : Nat), (List.range' c k).Pairwise (· < ·)
  | 0, _ => by simp
  | k + 1, c => by
    rw [List.range'_succ]
    exact List.Pairwise.cons
      (fun i hi => (mem_range'_bounds k (c + 1) i hi).1.trans_lt' (by omega))
      (range'_pairwise_lt k (c + 1))

/-- C3: task identifiers issued as `Add` mutations are strictly increasing
over any sequence of reconciliations and never reused: every issued id is
at least the allocator's starting value and below its final value, and each
id is strictly greater than every id issued before it, including ids of
entries deleted in between. -/
theorem issued_ids_strictly_increasing (oracle : Oracle) (s : TimerState)
    (maps : List (List (String × Nat))) (hs : NodupKeys s.timer_map)
    (hmaps : ∀ nm ∈ maps, NodupKeys nm) :
    List.Pairwise (· < ·) (issuedSeq oracle s maps) ∧
    ∀ i ∈ issuedSeq oracle s maps,
      s.timer_count ≤ i ∧ i < (refreshSeq oracle s maps).timer_count := by
  induction maps generalizing s with
  | nil =>
    constructor
    · simp [issuedSeq]
    · intro i hi
      simp [issuedSeq] at hi
  | cons nm rest ih =>
    have hnm : NodupKeys nm := hmaps nm (List.mem_cons_self _ _)
    obtain ⟨k, hk1, hk2⟩ := gen_diff_issued s.timer_map nm s.timer_count hs hnm
    have hs1 : NodupKeys (refresh oracle s nm).1.timer_map :=
      refresh_nodup oracle s nm hs
    have hc1 : (refresh oracle s nm).1.timer_count = s.timer_count + k := by
      rw [refresh_timer_count, hk1]
    obtain ⟨ihP, ihB⟩ := ih (refresh oracle s nm).1 hs1
      (fun m hm => hmaps m (List.mem_cons_of_mem _ hm))
    have hseq : issuedSeq oracle s (nm :: rest) =
        issuedIds (gen_diff s.timer_map nm s.timer_count).1 ++
          issuedSeq oracle (refresh oracle s nm).1 rest := rfl
    have hrseq : refreshSeq oracle s (nm :: rest) =
        refreshSeq oracle (refresh oracle s nm).1 rest := rfl
    constructor
    · rw [hseq, hk2, List.pairwise_append]
      refine ⟨range'_pairwise_lt k s.timer_count, ihP, ?_⟩
      intro a ha b hb
      have hab := mem_range'_bounds k s.timer_count a ha
      have hbb := ihB b hb
      rw [hc1] at hbb
      exact lt_of_lt_of_le hab.2 hbb.1
    · intro i hi
      rw [hseq, hk2] at hi
      rw [hrseq]
      rcases List.mem_append.mp hi with h | h
      · have hr := mem_range'_bounds k s.timer_count i h
        have hmono := refreshSeq_count_mono oracle rest (refresh oracle s nm).1
        rw [hc1] at hmono
        exact ⟨hr.1, lt_of_lt_of_le hr.2 hmono⟩
      · have hb := ihB i h
        rw [hc1] at hb
        exact ⟨le_trans (Nat.le_add_right _ _) hb.1, hb.2⟩

theorem issued_ids_strictly_increasing_witness :
    List.Pairwise (· < ·) (issuedSeq allOk globalInit
      [[("A", 30), ("B", 60)], [("B", 60)], [("B", 60), ("C", 40)]]) ∧
    ∀ i ∈ issuedSeq allOk globalInit
        [[("A", 30), ("B", 60)], [("B", 60)], [("B", 60), ("C", 40)]],
      globalInit.timer_count ≤ i ∧
        i < (refreshSeq allOk globalInit
          [[("A", 30), ("B", 60)], [("B", 60)], [("B", 60), ("C", 40)]]).timer_count :=
  issued_ids_strictly_increasing allOk globalInit
    [[("A", 30), ("B", 60)], [("B", 60)], [("B", 60), ("C", 40)]]
    (by decide) (by decide)

/-! ### Initialization and `gen_map` lemmas -/

/-- C4: `init` is one-way idempotent: with the initialized flag set it
returns success and leaves the whole state untouched (no reconciliation,
no catch-up scan); any successful `init` sets the flag, so every later
call takes the no-op path. -/
theorem init_one_way_idempotent (oracle : Oracle) (s : TimerState)
    (items : List PrfItem) (now : Int) :
    (s.initialized = true → init oracle s items now = some (s, Except.ok ())) ∧
    (∀ out, init oracle s items now = some out → out.1.initialized = true) ∧
    (∀ out, init oracle s items now = some out →
      ∀ (oracle2 : Oracle) (items2 : List PrfItem) (now2 : Int),
        init oracle2 out.1 items2 now2 = some (out.1, Except.ok ())) := by
  have hflag : ∀ out, init oracle s items now = some out →
      out.1.initialized = true := by
    intro out hout
    unfold init at hout
    by_cases h : s.initialized = true
    · rw [if_pos h] at hout
      have heq := Option.some.inj hout
      rw [← heq]
      exact h
    · rw [if_neg h] at hout
      cases hgm : gen_map items [] with
      | none =>
        rw [hgm] at hout
        cases hout
      | some nm =>
        rw [hgm] at hout
        have heq := Option.some.inj hout
        rw [← heq]
  refine ⟨?_, hflag, ?_⟩
  · intro h
    unfold init
    rw [if_pos h]
  · intro out hout oracle2 items2 now2
    unfold init
    rw [if_pos (hflag out hout)]

theorem init_one_way_idempotent_witness :
    init allOk
      { timer_map := [], timer_count := 1, initialized := true,
        delay_timer := { tasks := [], attempted := [] } } [] 0 =
      some ({ timer_map := [], timer_count := 1, initialized := true,
              delay_timer := { tasks := [], attempted := [] } }, Except.ok ()) :=
  (init_one_way_idempotent allOk
    { timer_map := [], timer_count := 1, initialized := true,
      delay_timer := { tasks := [], attempted := [] } } [] 0).1 rfl

theorem gen_map_none_iff (items : List PrfItem) :
    ∀ acc, gen_map items acc = none ↔
      ∃ item ∈ items, ∃ opt, item.option = some opt ∧
        0 < opt.update_interval.getD 0 ∧ item.uid = none := by
  induction items with
  | nil =>
    intro acc
    simp [gen_map]
  | cons item rest ih =>
    intro acc
    cases hop : item.option with
    | none =>
      have hstep : gen_map (item :: rest) acc = gen_map rest acc := by
        simp [gen_map, hop]
      rw [hstep, ih acc]
      constructor
      · rintro ⟨it, hmem, opt, h1, h2, h3⟩
        exact ⟨it, List.mem_cons_of_mem _ hmem, opt, h1, h2, h3⟩
      · rintro ⟨it, hmem, opt, h1, h2, h3⟩
        rcases List.mem_cons.mp hmem with heq | hmem
        · rw [heq, hop] at h1
          cases h1
        · exact ⟨it, hmem, opt, h1, h2, h3⟩
    | some opt =>
      by_cases hpos : 0 < opt.update_interval.getD 0
      · cases huid : item.uid with
        | none =>
          have hstep : gen_map (item :: rest) acc = none := by
            simp [gen_map, hop, hpos, huid]
          rw [hstep]
          constructor
          · intro _
            exact ⟨item, List.mem_cons_self _ _, opt, hop, hpos, huid⟩
          · intro _
            rfl
        | some uid =>
          have hstep : gen_map (item :: rest) acc =
              gen_map rest (insertA acc uid (opt.update_interval.getD 0)) := by
            simp [gen_map, hop, hpos, huid]
          rw [hstep, ih _]
          constructor
          · rintro ⟨it, hmem, opt', h1, h2, h3⟩
            exact ⟨it, List.mem_cons_of_mem _ hmem, opt', h1, h2, h3⟩
          · rintro ⟨it, hmem, opt', h1, h2, h3⟩
            rcases List.mem_cons.mp hmem with heq | hmem
            · rw [heq, huid] at h3
              cases h3
            · exact ⟨it, hmem, opt', h1, h2, h3⟩
      · have hstep : gen_map (item :: rest) acc = gen_map rest acc := by
          simp [gen_map, hop, hpos]
        rw [hstep, ih acc]
        constructor
        · rintro ⟨it, hmem, opt', h1, h2, h3⟩
          exact ⟨it, List.mem_cons_of_mem _ hmem, opt', h1, h2, h3⟩
        · rintro ⟨it, hmem, opt', h1, h2, h3⟩
          rcases List.mem_cons.mp hmem with heq | hmem
          · rw [heq, hop] at h1
            have hoe : opt' = opt := (Option.some.inj h1).symm
            exact absurd (hoe ▸ h2) hpos
          · exact ⟨it, hmem, opt', h1, h2, h3⟩

/-- C9: building the desired map panics exactly when the snapshot has a
profile whose option carries a positive `update_interval` but whose uid is
absent (`unwrap` of the uid); the panic propagates through `refresh` and
through a first (uninitialized) `init` instead of an error return. -/
theorem gen_map_panics_without_uid (oracle : Oracle) (s : TimerState)
    (items : List PrfItem) (now : Int) :
    (gen_map items [] = none ↔
      ∃ item ∈ items, ∃ opt, item.option = some opt ∧
        0 < opt.update_interval.getD 0 ∧ item.uid = none) ∧
    (gen_map items [] = none →
      refresh_items oracle s items = none ∧
      (s.initialized = false → init oracle s items now = none)) := by
  refine ⟨gen_map_none_iff items [], fun h => ⟨?_, fun hins => ?_⟩⟩
  · simp [refresh_items, h]
  · simp [init, hins, h]

theorem gen_map_panics_without_uid_witness :
    gen_map [{ uid := none, option := some { update_interval := some 30 },
               updated := none }] [] = none ∧
    refresh_items allOk globalInit
      [{ uid := none, option := some { update_interval := some 30 },
         updated := none }] = none := by
  have h := gen_map_panics_without_uid allOk globalInit
    [{ uid := none, option := some { update_interval := some 30 },
       updated := none }] 0
  have hnone : gen_map
      [{ uid := none, option := some { update_interval := some 30 },
         updated := none }] [] = none :=
    h.1.mpr ⟨_, List.mem_cons_self _ _, _, rfl, by decide, rfl⟩
  exact ⟨hnone, (h.2 hnone).1⟩

/-! ### Catch-up scan lemmas -/

theorem wrap64_eq_self (z : Int) (h1 : -(2 ^ 63) ≤ z) (h2 : z < 2 ^ 63) :
    wrap64 z = z := by
  unfold wrap64
  have hb : (0 : Int) ≤ z + 2 ^ 63 := by linarith
  have hc : z + 2 ^ 63 < 2 ^ 64 := by
    have he : (2 : Int) ^ 64 = 2 ^ 63 + 2 ^ 63 := by norm_num
    linarith
  rw [Int.emod_eq_of_lt hb hc]
  ring

theorem advancePass_spec (tmap : List (String × TaskID × Nat))
    (l : List PrfItem) : ∀ a : Adapter,
    (advancePass tmap a l).attempted = a.attempted ++ l.flatMap (advOne tmap) ∧
    (advancePass tmap a l).tasks = a.tasks := by
  induction l with
  | nil =>
    intro a
    exact ⟨by simp [advancePass], rfl⟩
  | cons item rest ih =>
    intro a
    rcases huid : item.uid with _ | uid
    · have hstep : advancePass tmap a (item :: rest) = advancePass tmap a rest := by
        simp [advancePass, huid]
      have hadv : advOne tmap item = [] := by simp [advOne, huid]
      obtain ⟨h1, h2⟩ := ih a
      rw [hstep]
      refine ⟨?_, h2⟩
      rw [h1]
      simp [hadv]
    · rcases hlk : lookupA tmap uid with _ | ⟨tid, x⟩
      · have hstep : advancePass tmap a (item :: rest) = advancePass tmap a rest := by
          simp [advancePass, huid, hlk]
        have hadv : advOne tmap item = [] := by simp [advOne, huid, hlk]
        obtain ⟨h1, h2⟩ := ih a
        rw [hstep]
        refine ⟨?_, h2⟩
        rw [h1]
        simp [hadv]
      · have hstep : advancePass tmap a (item :: rest) =
            advancePass tmap (adapterAdvance a tid) rest := by
          simp [advancePass, huid, hlk]
        have hadv : advOne tmap item = [AdapterCall.advanceTask tid] := by
          simp [advOne, huid, hlk]
        obtain ⟨h1, h2⟩ := ih (adapterAdvance a tid)
        rw [hstep]
        constructor
        · rw [h1]
          simp [adapterAdvance, hadv]
        · rw [h2]
          rfl

theorem overdue_advance_eq (tmap : List (String × TaskID × Nat)) (now : Int)
    (item : PrfItem) (hno : CatchUpNoOverflow now item) :
    (if overdueKeep now item then advOne tmap item else []) =
      advanceSpec tmap now item := by
  rcases hop : item.option with _ | opt
  · simp [overdueKeep, advanceSpec, hop]
  · rcases hm : opt.update_interval with _ | m
    · simp [overdueKeep, advanceSpec, hop, hm]
    · rcases hts : item.updated with _ | ts
      · simp [overdueKeep, advanceSpec, hop, hm, hts]
      · obtain ⟨hno1, hno2⟩ := hno
        have hm60 : (m : Int) * 60 < 2 ^ 63 := hno1 opt hop m hm
        obtain ⟨hts1, hts2, hts3⟩ := hno2 ts hts
        have hm0 : (0 : Int) ≤ (m : Int) := Int.ofNat_nonneg m
        have hmlt : (m : Int) < 2 ^ 63 := by nlinarith
        have e1 : u64_as_i64 m = (m : Int) :=
          wrap64_eq_self _ (by linarith [show (0:Int) < 2 ^ 63 by norm_num]) hmlt
        have e2 : wrap64 ((m : Int) * 60) = (m : Int) * 60 :=
          wrap64_eq_self _ (by nlinarith [show (0:Int) < 2 ^ 63 by norm_num]) hm60
        have e3 : u64_as_i64 ts = (ts : Int) :=
          wrap64_eq_self _
            (by linarith [Int.ofNat_nonneg ts, show (0:Int) < 2 ^ 63 by norm_num])
            hts1
        have e4 : wrap64 (now - (ts : Int)) = now - (ts : Int) :=
          wrap64_eq_self _ hts2 hts3
        have hko : overdueKeep now item =
            (decide (0 < (m : Int) * 60) &&
              decide ((m : Int) * 60 ≤ now - (ts : Int))) := by
          rw [show overdueKeep now item =
              (decide (0 < wrap64 (u64_as_i64 m * 60)) &&
                decide (wrap64 (u64_as_i64 m * 60) ≤ wrap64 (now - u64_as_i64 ts)))
              from by simp [overdueKeep, hop, hm, hts]]
          rw [e1, e3, e2, e4]
        have hposIff : (0 < (m : Int) * 60) ↔ 0 < m := by
          constructor
          · intro h
            rcases Nat.eq_zero_or_pos m with hz | hp
            · subst hz
              simp at h
            · exact hp
          · intro h
            have : (0 : Int) < (m : Int) := Int.ofNat_pos.mpr h
            nlinarith
        rcases huid : item.uid with _ | uid
        · have hadv : advOne tmap item = [] := by simp [advOne, huid]
          have hsp : advanceSpec tmap now item = [] := by
            simp [advanceSpec, hop, hm, hts, huid]
          rw [hadv, hsp]
          simp
        · rcases hlk : lookupA tmap uid with _ | ⟨tid, x⟩
          · have hadv : advOne tmap item = [] := by simp [advOne, huid, hlk]
            have hsp : advanceSpec tmap now item = [] := by
              simp [advanceSpec, hop, hm, hts, huid, hlk]
            rw [hadv, hsp]
            simp
          · have hadv : advOne tmap item = [AdapterCall.advanceTask tid] := by
              simp [advOne, huid, hlk]
            have hsp : advanceSpec tmap now item =
                if 0 < m then
                  (if (m : Int) * 60 ≤ now - (ts : Int) then
                    [AdapterCall.advanceTask tid] else [])
                else [] := by
              simp [advanceSpec, hop, hm, hts, huid, hlk]
            rw [hadv, hsp, hko]
            by_cases hp : 0 < m
            · by_cases hle : (m : Int) * 60 ≤ now - (ts : Int)
              · rw [if_pos hp, if_pos hle]
                simp [hposIff.mpr hp, hle]
              · rw [if_pos hp, if_neg hle]
                simp [hle]
            · rw [if_neg hp]
              have : ¬ (0 < (m : Int) * 60) := fun h => hp (hposIff.mp h)
              simp [this]

theorem filter_flatMap_advance (tmap : List (String × TaskID × Nat)) (now : Int) :
    ∀ items : List PrfItem, (∀ it ∈ items, CatchUpNoOverflow now it) →
      (items.filter (overdueKeep now)).flatMap (advOne tmap) =
        items.flatMap (advanceSpec tmap now) := by
  intro items
  induction items with
  | nil => intro _; rfl
  | cons item rest ih =>
    intro hno
    have hitem := hno item (List.mem_cons_self _ _)
    have hrest := fun it hit => hno it (List.mem_cons_of_mem _ hit)
    have hcons : (item :: rest).flatMap (advanceSpec tmap now) =
        advanceSpec tmap now item ++ rest.flatMap (advanceSpec tmap now) := by
      simp
    by_cases hk : overdueKeep now item
    · rw [List.filter_cons_of_pos hk]
      have hfc : (item :: rest.filter (overdueKeep now)).flatMap (advOne tmap) =
          advOne tmap item ++ (rest.filter (overdueKeep now)).flatMap (advOne tmap) := by
        simp
      rw [hfc, ih hrest, hcons]
      have := overdue_advance_eq tmap now item hitem
      rw [if_pos hk] at this
      rw [this]
    · rw [List.filter_cons_of_neg hk, ih hrest, hcons]
      have := overdue_advance_eq tmap now item hitem
      rw [if_neg hk] at this
      rw [← this]
      simp

theorem catchUp_spec (tmap : List (String × TaskID × Nat)) (a : Adapter)
    (items : List PrfItem) (now : Int)
    (hno : ∀ it ∈ items, CatchUpNoOverflow now it) :
    (catchUp tmap a items now).attempted =
      a.attempted ++ items.flatMap (advanceSpec tmap now) ∧
    (catchUp tmap a items now).tasks = a.tasks := by
  unfold catchUp
  obtain ⟨h1, h2⟩ := advancePass_spec tmap (items.filter (overdueKeep now)) a
  refine ⟨?_, h2⟩
  rw [h1, filter_flatMap_advance tmap now items hno]

/-- C5: during a first `init`, the adapter's advance operation is invoked
exactly for the profiles that have a positive interval, an updated
timestamp, and a registry entry after the initial reconciliation, and for
which `now - updated ≥ interval` with the interval converted from minutes
to the timestamp's unit (seconds); every other profile triggers no
advance. -/
theorem init_catch_up_spec (oracle : Oracle) (s : TimerState)
    (items : List PrfItem) (now : Int) (nm : List (String × Nat))
    (hinit : s.initialized = false) (hgm : gen_map items [] = some nm)
    (hno : ∀ item ∈ items, CatchUpNoOverflow now item) :
    (init oracle s items now).map (fun out => out.1.delay_timer.attempted) =
      some ((refresh oracle s nm).1.delay_timer.attempted ++
        items.flatMap
          (advanceSpec (refresh oracle s nm).1.timer_map now)) := by
  have hne : ¬ (s.initialized = true) := by
    rw [hinit]
    exact Bool.false_ne_true
  unfold init
  rw [if_neg hne, hgm]
  simp only [Option.map_some]
  exact congrArg some
    ((catchUp_spec (refresh oracle s nm).1.timer_map
      (refresh oracle s nm).1.delay_timer items now hno).1)

theorem init_catch_up_spec_witness :
    (init allOk globalInit
        [{ uid := some "A", option := some { update_interval := some 30 },
           updated := some 0 },
         { uid := some "B", option := some { update_interval := some 30 },
           updated := some 1800 }] 2400).map
      (fun out => out.1.delay_timer.attempted) =
      some ((refresh allOk globalInit
          [("A", 30), ("B", 30)]).1.delay_timer.attempted ++
        [AdapterCall.advanceTask 1]) := by
  have hno : ∀ item ∈
      [{ uid := some "A", option := some { update_interval := some 30 },
         updated := some 0 },
       { uid := some "B", option := some { update_interval := some 30 },
         updated := some (1800 : Nat) }],
      CatchUpNoOverflow 2400 item := by
    intro item hit
    rcases List.mem_cons.mp hit with heq | hit2
    · subst heq
      constructor
      · intro opt hopt m hm
        obtain rfl := (Option.some.inj hopt).symm
        obtain rfl := (Option.some.inj hm).symm
        decide
      · intro ts hts
        obtain rfl := (Option.some.inj hts).symm
        exact ⟨by decide, by decide, by decide⟩
    · rcases List.mem_cons.mp hit2 with heq | hit3
      · subst heq
        constructor
        · intro opt hopt m hm
          obtain rfl := (Option.some.inj hopt).symm
          obtain rfl := (Option.some.inj hm).symm
          decide
        · intro ts hts
          obtain rfl := (Option.some.inj hts).symm
          exact ⟨by decide, by decide, by decide⟩
      · cases hit3
  have h := init_catch_up_spec allOk globalInit
    [{ uid := some "A", option := some { update_interval := some 30 },
       updated := some 0 },
     { uid := some "B", option := some { update_interval := some 30 },
       updated := some 1800 }] 2400 [("A", 30), ("B", 30)] rfl (by decide) hno
  rw [h]
  decide

/-! ### Mihomo cache claim -/

/-- C10: `refresh_proxies` and `refresh_providers_proxies` are atomic on
error: a failed request returns the error with the cached data completely
unchanged, and a successful one overwrites only its own field, leaving the
other field untouched. -/
theorem mihomo_refresh_atomic (J : Type) (d : MihomoData J) (e : String) (v : J) :
    refresh_proxies d (Except.error e) = (d, Except.error e) ∧
    refresh_providers_proxies d (Except.error e) = (d, Except.error e) ∧
    refresh_proxies d (Except.ok v) =
      ({ d with proxies := v }, Except.ok ()) ∧
    (refresh_proxies d (Except.ok v)).1.providers_proxies =
      d.providers_proxies ∧
    refresh_providers_proxies d (Except.ok v) =
      ({ d with providers_proxies := v }, Except.ok ()) ∧
    (refresh_providers_proxies d (Except.ok v)).1.proxies = d.proxies :=
  ⟨rfl, rfl, rfl, rfl, rfl, rfl⟩

end ClashVergeRev
